import Mathlib

set_option maxHeartbeats 1600000
set_option linter.unusedSectionVars false

namespace Sumcheck

/-- Protocol error kinds (spec section 7): transcript absorption failure,
malformed proof, and failed consistency check. Shape mismatch in batched mode
is a fatal assertion at call time, not a recoverable `Error`. -/
inductive Error where
  | transcriptFailure : Error
  | malformedProof : Error
  | consistencyFailure : Error
deriving DecidableEq

/-- Modelled from the spec: the shape summary of a product-list polynomial
(`PolynomialInfo` from `crate::ml_sumcheck::data_structures`, which is not under
`src/`): arity, `max_multiplicands`, and the per-product multiplicand counts.
A pure function of shape, independent of field values. -/
structure PolynomialInfo where
  num_variables : Nat
  max_multiplicands : Nat
  products_multiplicands : List Nat
deriving DecidableEq

/-- Data fed to the Fiat-Shamir transcript: a polynomial shape summary, a round
message's evaluations, or a marker recording that a challenge was sampled. -/
inductive Item (F : Type) where
  | info : PolynomialInfo → Item F
  | msg : List F → Item F
  | sample : Item F
deriving DecidableEq

/-- Modelled from the spec: the transcript (`crate::rng::FeedableRNG`, not under
`src/`) is a deterministic challenge generator; we record the ordered log of
everything fed to it (and of each sampling event), and challenges are produced
by an arbitrary deterministic function of that log. -/
abbrev Transcript (F : Type) := List (Item F)

/-- Modelled from the spec: a round message (`ProverMsg` from
`crate::ml_sumcheck::protocol::prover`, not under `src/`) carries
`max_multiplicands + 1` field evaluations of the round's univariate reduction
polynomial at sample points `0, 1, ..., max_multiplicands`. -/
structure ProverMsg (F : Type) where
  evaluations : List F
deriving DecidableEq

/-- A proof is an ordered sequence of round messages (`Proof<F>` in
`src/src/ml_sumcheck/mod.rs`). -/
abbrev Proof (F : Type) := List (ProverMsg F)

/-- Result of running an orchestrator entry point: a value, a recoverable
reported error, or a process-fatal panic (from `assert!`, `unwrap`, `expect`,
or out-of-bounds indexing).  A panic records the transcript log at the moment
of the panic. -/
inductive Outcome (F : Type) (α : Type) where
  | ok : α → Outcome F α
  | err : Error → Outcome F α
  | panic : Transcript F → Outcome F α
deriving DecidableEq

/-- Modelled from the spec: a product-list polynomial
(`ListOfProductsOfPolynomials` from `crate::ml_sumcheck::data_structures`, not
under `src/`): an ordered list of product terms, each a field coefficient and a
list of multiplicand evaluation tables (each of size `2^num_variables`), plus
the total arity. -/
structure ListOfProductsOfPolynomials (F : Type) where
  num_variables : Nat
  products : List (F × List (List F))
deriving DecidableEq

/-- Modelled from the spec: a sub-claim (`SubClaim` from
`crate::ml_sumcheck::protocol::verifier`, not under `src/`): a point (one field
element per original variable) and the value the polynomial is claimed to take
there. -/
structure SubClaim (F : Type) where
  point : List F
  expected_value : F
deriving DecidableEq

/-- Modelled from the spec: prover state (`ProverState` from
`crate::ml_sumcheck::protocol::prover`, not under `src/`): the accumulated
ordered challenge list, the owned (destructively folded) product terms, the
remaining arity, and the bound `max_multiplicands`. -/
structure ProverState (F : Type) where
  randomness : List F
  products : List (F × List (List F))
  remaining : Nat
  max_multiplicands : Nat
deriving DecidableEq

/-- Modelled from the spec: verifier state (`VerifierState` from
`crate::ml_sumcheck::protocol::verifier`, not under `src/`): arity and
`max_multiplicands` from the shape summary, accumulated challenges, the running
expected value, the round-0 baseline (evaluations at 0 and 1 of the first
message), and a sticky record of the first failure observed. -/
structure VerifierState (F : Type) where
  num_variables : Nat
  max_multiplicands : Nat
  randomness : List F
  running : Option F
  round0 : Option F
  failed : Option Error
deriving DecidableEq

variable {F : Type} [Field F] [DecidableEq F]

/-- `max_multiplicands` of a product-list polynomial: the maximum multiplicand
count across all product terms. -/
def maxMultiplicands (poly : ListOfProductsOfPolynomials F) : Nat :=
  (poly.products.map (fun p => p.2.length)).foldr max 0

/-- Modelled from the spec: `info()` returns the shape summary of a
product-list polynomial. -/
def polyInfo (poly : ListOfProductsOfPolynomials F) : PolynomialInfo :=
  ⟨poly.num_variables, maxMultiplicands poly, poly.products.map (fun p => p.2.length)⟩

/-- Modelled from the spec: `fold(table, challenge)` replaces a `2^k`-entry
table with a `2^(k-1)`-entry table whose entry `i` is
`(1-challenge)*table[2i] + challenge*table[2i+1]`. -/
def foldTable (c : F) : List F → List F
  | a :: b :: rest => ((1 - c) * a + c * b) :: foldTable c rest
  | _ => []

/-- Fold every multiplicand table of every product term with the same
challenge (tables are folded in lock-step). -/
def foldProds (c : F) (prods : List (F × List (List F))) : List (F × List (List F)) :=
  prods.map (fun p => (p.1, p.2.map (foldTable c)))

/-- Value of a list of multiplicand tables at hypercube index `x`: the product
of the table entries (missing entries default to 0). -/
def prodAt (tbls : List (List F)) (x : Nat) : F :=
  (tbls.map (fun t => t.getD x 0)).prod

/-- The hypercube sum of a product list over indices `0..len`: the quantity the
protocol proves. -/
def polySum (len : Nat) (prods : List (F × List (List F))) : F :=
  (prods.map (fun p => p.1 * ∑ x ∈ Finset.range len, prodAt p.2 x)).sum

/-- Modelled from the spec: value of the round's univariate reduction
polynomial at a point `t` — for every product term, the coefficient times the
sum over the half-size sub-cube of the product of the per-multiplicand linear
interpolations `(1-t)*table[2i] + t*table[2i+1]`. -/
def roundEvalAt (half : Nat) (prods : List (F × List (List F))) (t : F) : F :=
  (prods.map (fun p => p.1 * ∑ i ∈ Finset.range half,
    (p.2.map (fun tbl => (1 - t) * tbl.getD (2 * i) 0 + t * tbl.getD (2 * i + 1) 0)).prod)).sum

/-- Modelled from the spec: `evaluate(table, point)` is multilinear
interpolation at an arbitrary point, realised by fixing each variable of the
point in order (repeated folding) and reading the remaining single entry. -/
def evaluate (t : List F) (point : List F) : F :=
  (point.foldl (fun tb c => foldTable c tb) t).getD 0 0

/-- The product-list polynomial evaluated at a point. -/
def evalPoly (poly : ListOfProductsOfPolynomials F) (point : List F) : F :=
  (poly.products.map (fun p => p.1 * (p.2.map (fun t => evaluate t point)).prod)).sum

/-- The true sum of the product-list polynomial over the Boolean hypercube. -/
def trueSum (poly : ListOfProductsOfPolynomials F) : F :=
  polySum (2 ^ poly.num_variables) poly.products

/-- `MLSumcheck::extract_sum` (src/src/ml_sumcheck/mod.rs lines 26-28): returns
`proof[0].evaluations[0] + proof[0].evaluations[1]`.  Out-of-bounds indexing
panics in the source; the panic is modelled as `none`. -/
def extract_sum (proof : Proof F) : Option F :=
  match proof.get? 0 with
  | some m =>
    match m.evaluations.get? 0, m.evaluations.get? 1 with
    | some a, some b => some (a + b)
    | _, _ => none
  | none => none

/-- Modelled from the spec: `prover_init(polynomial)` builds a prover state
owning a private copy of every multiplicand table, remaining arity equal to the
polynomial arity, and an empty challenge list. -/
def prover_init (poly : ListOfProductsOfPolynomials F) : ProverState F :=
  ⟨[], poly.products, poly.num_variables, maxMultiplicands poly⟩

/-- Modelled from the spec: `prove_round(state, last_challenge)` — when a last
challenge is present, fold every owned table with it, record it in the
challenge list and decrement the remaining arity; then emit the round message:
the `max_multiplicands + 1` evaluations of the round polynomial at the sample
points `0, 1, ..., max_multiplicands`. -/
def prove_round (st : ProverState F) (vmsg : Option F) : ProverState F × ProverMsg F :=
  let st1 := match vmsg with
    | none => st
    | some c => { st with
        products := foldProds c st.products,
        randomness := st.randomness ++ [c],
        remaining := st.remaining - 1 }
  (st1, ⟨List.ofFn (fun t : Fin (st1.max_multiplicands + 1) =>
    roundEvalAt (2 ^ (st1.remaining - 1)) st1.products ((t : Nat) : F))⟩)

/-- Modelled from the spec: Lagrange interpolation of a list of evaluations at
sample points `0, 1, ..., length-1`, evaluated at `r`. -/
def interp (evals : List F) (r : F) : F :=
  ∑ i ∈ Finset.range evals.length, evals.getD i 0 *
    ∏ j ∈ (Finset.range evals.length).erase i, (r - (j : F)) / ((i : F) - (j : F))

/-- Modelled from the spec: `verifier_init(info)` stores arity and
`max_multiplicands` from the shape summary, with an empty challenge list and no
expected value yet. -/
def verifier_init (inf : PolynomialInfo) : VerifierState F :=
  ⟨inf.num_variables, inf.max_multiplicands, [], none, none, none⟩

/-- Record an error in the verifier state, keeping the first failure. -/
def firstErr (o : Option Error) (e : Error) : Option Error :=
  match o with
  | some e0 => some e0
  | none => some e

/-- Modelled from the spec: the state-update part of `verify_round` given the
sampled challenge `c` — reject (as malformed) a message that does not carry
exactly `max_multiplicands + 1` evaluations; on round 0 set the round-0
baseline to `evaluations[0] + evaluations[1]`; on a later round require that
quantity to equal the running expected value (recording a consistency failure
otherwise); then append the challenge and set the running expected value to the
Lagrange interpolation of the message at the challenge. -/
def vUpdate (m : ProverMsg F) (s : VerifierState F) (c : F) : VerifierState F :=
  if m.evaluations.length = s.max_multiplicands + 1 then
    let e01 := m.evaluations.getD 0 0 + m.evaluations.getD 1 0
    let s2 := match s.running with
      | none => { s with round0 := some e01 }
      | some e => if e01 = e then s
                  else { s with failed := firstErr s.failed Error.consistencyFailure }
    { s2 with randomness := s2.randomness ++ [c], running := some (interp m.evaluations c) }
  else { s with failed := firstErr s.failed Error.malformedProof }

variable (chal : List (Item F) → F)

/-- Modelled from the spec: `verify_round(message, state, transcript)` — the
message has already been fed by the orchestrator; sample a challenge from the
transcript and update the verifier state with it. -/
def verify_round (m : ProverMsg F) (s : VerifierState F) (tr : Transcript F) :
    VerifierState F × Transcript F :=
  (vUpdate m s (chal tr), tr ++ [Item.sample])

/-- Modelled from the spec: `multi_degree_verify_round` applies identical logic
to a pair of verifier states advanced together with one shared sampled
challenge. -/
def multi_degree_verify_round (ms : ProverMsg F × ProverMsg F)
    (s : VerifierState F × VerifierState F) (tr : Transcript F) :
    (VerifierState F × VerifierState F) × Transcript F :=
  ((vUpdate ms.1 s.1 (chal tr), vUpdate ms.2 s.2 (chal tr)), tr ++ [Item.sample])

/-- Modelled from the spec: `check_and_generate_subclaim(state, claimed_sum)` —
surface any recorded failure; require the round-0 baseline to equal the claimed
sum; return the sub-claim (challenge vector, final running expected value). -/
def check_and_generate_subclaim (s : VerifierState F) (claimed : F) :
    Except Error (SubClaim F) :=
  match s.failed with
  | some e => Except.error e
  | none =>
    match s.round0, s.running with
    | some base, some v =>
      if base = claimed then Except.ok ⟨s.randomness, v⟩
      else Except.error Error.consistencyFailure
    | _, _ => Except.error Error.malformedProof

/-- Modelled from the spec: `multi_degree_check_and_generate_subclaim` applies
the same terminal logic to a pair of verifier states (the spec leaves the
pair's terminal combination otherwise unspecified; failures recorded in either
state are surfaced, and the sub-claim of the larger instance is produced). -/
def multi_degree_check_and_generate_subclaim (s : VerifierState F × VerifierState F)
    (claimed : F) : Except Error (SubClaim F) :=
  match s.2.failed with
  | some e => Except.error e
  | none => check_and_generate_subclaim s.1 claimed

/-- The round loop of `MLSumcheck::prove_as_subprotocol` (src/src/ml_sumcheck/
mod.rs lines 59-64): each iteration runs `prove_round`, feeds the message to
the transcript, records it, and samples the round's challenge. -/
def proveLoop : Nat → ProverState F → Option F → Transcript F →
    (List (ProverMsg F) × ProverState F × Option F × Transcript F)
  | 0, st, vmsg, tr => ([], st, vmsg, tr)
  | r + 1, st, vmsg, tr =>
    let pm := prove_round st vmsg
    let tr1 := tr ++ [Item.msg pm.2.evaluations]
    let c := chal tr1
    let tr2 := tr1 ++ [Item.sample]
    let rest := proveLoop r pm.1 (some c) tr2
    (pm.2 :: rest.1, rest.2)

/-- `MLSumcheck::prove_as_subprotocol` (src/src/ml_sumcheck/mod.rs lines
50-69): feed the shape summary, run the round loop, then push the final pending
challenge (an `unwrap`, which panics when no round was executed). -/
def prove_as_subprotocol (tr : Transcript F) (poly : ListOfProductsOfPolynomials F) :
    Outcome F ((Proof F × ProverState F) × Transcript F) :=
  let tr0 := tr ++ [Item.info (polyInfo poly)]
  match proveLoop chal poly.num_variables (prover_init poly) none tr0 with
  | (msgs, st, vmsg, trf) =>
    match vmsg with
    | none => Outcome.panic trf
    | some c => Outcome.ok ((msgs, { st with randomness := st.randomness ++ [c] }), trf)

/-- `MLSumcheck::prove` (src/src/ml_sumcheck/mod.rs lines 42-45): run
`prove_as_subprotocol` on a fresh transcript and keep only the proof. -/
def prove (poly : ListOfProductsOfPolynomials F) : Outcome F (Proof F) :=
  match prove_as_subprotocol chal [] poly with
  | Outcome.ok r => Outcome.ok r.1.1
  | Outcome.err e => Outcome.err e
  | Outcome.panic t => Outcome.panic t

/-- The shared round loop of `MLSumcheck::multi_degree_prove_as_subprotocol`
(src/src/ml_sumcheck/mod.rs lines 87-95): each iteration runs `prove_round` on
both provers with the same pending challenge, feeds both messages in order,
records them, and samples the single shared challenge. -/
def sharedLoop : Nat → ProverState F → ProverState F → Option F → Transcript F →
    (List (ProverMsg F) × List (ProverMsg F) × ProverState F × ProverState F ×
      Option F × Transcript F)
  | 0, s0, s1, v, tr => ([], [], s0, s1, v, tr)
  | r + 1, s0, s1, v, tr =>
    let p0 := prove_round s0 v
    let p1 := prove_round s1 v
    let tr1 := tr ++ [Item.msg p0.2.evaluations] ++ [Item.msg p1.2.evaluations]
    let c := chal tr1
    let tr2 := tr1 ++ [Item.sample]
    let rest := sharedLoop r p0.1 p1.1 (some c) tr2
    (p0.2 :: rest.1, p1.2 :: rest.2.1, rest.2.2)

/-- `MLSumcheck::multi_degree_prove_as_subprotocol` (src/src/ml_sumcheck/mod.rs
lines 73-112): assert `polynomial_0` has strictly more variables, feed both
shape summaries, run the shared loop for `polynomial_1`'s rounds, push
`polynomial_1`'s final challenge (an `unwrap`), continue `polynomial_0` alone,
then push its final challenge (an `unwrap`). -/
def multi_degree_prove_as_subprotocol (tr : Transcript F)
    (p0 p1 : ListOfProductsOfPolynomials F) :
    Outcome F (((Proof F × Proof F) × (ProverState F × ProverState F)) × Transcript F) :=
  if p0.num_variables > p1.num_variables then
    let tr1 := tr ++ [Item.info (polyInfo p0)] ++ [Item.info (polyInfo p1)]
    match sharedLoop chal p1.num_variables (prover_init p0) (prover_init p1) none tr1 with
    | (m0s, m1s, s0, s1, vmsg, tr2) =>
      match vmsg with
      | none => Outcome.panic tr2
      | some c =>
        let s1f := { s1 with randomness := s1.randomness ++ [c] }
        match proveLoop chal (p0.num_variables - p1.num_variables) s0 (some c) tr2 with
        | (m0tail, s0f, vmsg2, tr3) =>
          match vmsg2 with
          | none => Outcome.panic tr3
          | some c2 =>
            Outcome.ok (((m0s ++ m0tail, m1s),
              ({ s0f with randomness := s0f.randomness ++ [c2] }, s1f)), tr3)
  else Outcome.panic tr

/-- The round loop of `MLSumcheck::verify_as_subprotocol` (src/src/ml_sumcheck/
mod.rs lines 173-178): each iteration fetches `proof[i]` (an `expect` that
panics when the proof is too short), feeds it, and runs `verify_round`. -/
def verifyLoop : Nat → List (ProverMsg F) → VerifierState F → Transcript F →
    Outcome F (VerifierState F × Transcript F)
  | 0, _, vs, tr => Outcome.ok (vs, tr)
  | _ + 1, [], _, tr => Outcome.panic tr
  | r + 1, m :: rest, vs, tr =>
    let tr1 := tr ++ [Item.msg m.evaluations]
    let vt := verify_round chal m vs tr1
    verifyLoop r rest vt.1 vt.2

/-- `MLSumcheck::verify_as_subprotocol` (src/src/ml_sumcheck/mod.rs lines
165-181): feed the shape summary, run the round loop, then check and generate
the sub-claim. -/
def verify_as_subprotocol (tr : Transcript F) (inf : PolynomialInfo) (claimed : F)
    (proof : Proof F) : Outcome F (SubClaim F × Transcript F) :=
  let tr0 := tr ++ [Item.info inf]
  match verifyLoop chal inf.num_variables proof (verifier_init inf) tr0 with
  | Outcome.ok (vs, trf) =>
    match check_and_generate_subclaim vs claimed with
    | Except.ok sub => Outcome.ok (sub, trf)
    | Except.error e => Outcome.err e
  | Outcome.err e => Outcome.err e
  | Outcome.panic t => Outcome.panic t

/-- `MLSumcheck::verify` (src/src/ml_sumcheck/mod.rs lines 115-122): run
`verify_as_subprotocol` on a fresh transcript. -/
def verify (inf : PolynomialInfo) (claimed : F) (proof : Proof F) :
    Outcome F (SubClaim F) :=
  match verify_as_subprotocol chal [] inf claimed proof with
  | Outcome.ok r => Outcome.ok r.1
  | Outcome.err e => Outcome.err e
  | Outcome.panic t => Outcome.panic t

/-- The shared round loop of `MLSumcheck::multi_degree_verify_as_subprotocol`
(src/src/ml_sumcheck/mod.rs lines 138-150): each iteration fetches a message
from each proof (`expect`, panicking on a short proof, the larger instance's
proof first), feeds both, and runs the paired verify round. -/
def mdVerifyLoop : Nat → List (ProverMsg F) → List (ProverMsg F) →
    (VerifierState F × VerifierState F) → Transcript F →
    Outcome F ((VerifierState F × VerifierState F) × Transcript F)
  | 0, _, _, vs, tr => Outcome.ok (vs, tr)
  | _ + 1, [], _, _, tr => Outcome.panic tr
  | _ + 1, _ :: _, [], _, tr => Outcome.panic tr
  | r + 1, m0 :: r0, m1 :: r1, vs, tr =>
    let tr1 := tr ++ [Item.msg m0.evaluations] ++ [Item.msg m1.evaluations]
    let vt := multi_degree_verify_round chal (m0, m1) vs tr1
    mdVerifyLoop r r0 r1 vt.1 vt.2

/-- `MLSumcheck::multi_degree_verify_as_subprotocol` (src/src/ml_sumcheck/
mod.rs lines 126-161): feed both shape summaries, run the shared loop for the
smaller instance's rounds, continue the larger instance alone (`expect`
panicking on a short proof), then produce the terminal sub-claim. -/
def multi_degree_verify_as_subprotocol (tr : Transcript F)
    (infos : PolynomialInfo × PolynomialInfo) (claimed : F)
    (proofs : Proof F × Proof F) : Outcome F (SubClaim F × Transcript F) :=
  let tr0 := tr ++ [Item.info infos.1] ++ [Item.info infos.2]
  match mdVerifyLoop chal infos.2.num_variables proofs.1 proofs.2
      (verifier_init infos.1, verifier_init infos.2) tr0 with
  | Outcome.ok (vs, tr1) =>
    match verifyLoop chal (infos.1.num_variables - infos.2.num_variables)
        (proofs.1.drop infos.2.num_variables) vs.1 tr1 with
    | Outcome.ok (v0, trf) =>
      match multi_degree_check_and_generate_subclaim (v0, vs.2) claimed with
      | Except.ok sub => Outcome.ok (sub, trf)
      | Except.error e => Outcome.err e
    | Outcome.err e => Outcome.err e
    | Outcome.panic t => Outcome.panic t
  | Outcome.err e => Outcome.err e
  | Outcome.panic t => Outcome.panic t

/-- Injectivity of the natural-number embedding on the sample points
`0, 1, ..., m`: the field must distinguish the interpolation nodes (true for
any field of characteristic 0 or larger than `m`). -/
abbrev castInjUpTo (F : Type) [Field F] (m : Nat) : Prop :=
  ∀ i ∈ Finset.range (m + 1), ∀ j ∈ Finset.range (m + 1), (i : F) = (j : F) → i = j

/-- The transcript-log fragment produced by one sequence of unbatched rounds:
each round feeds the round message and then samples a challenge. -/
def msgBlocks (msgs : List (ProverMsg F)) : Transcript F :=
  (msgs.map (fun m => [Item.msg m.evaluations, Item.sample])).flatten

/-- The transcript-log fragment produced by the shared rounds of batched mode:
each round feeds both round messages in order and then samples the single
shared challenge. -/
def msgBlocks2 (m0s m1s : List (ProverMsg F)) : Transcript F :=
  ((m0s.zip m1s).map
    (fun p => [Item.msg p.1.evaluations, Item.msg p.2.evaluations, Item.sample])).flatten

/-- The sequence of challenges the deterministic transcript produced while
processing a log fragment: one challenge per `sample` marker, each computed
from the full log accumulated before that marker. -/
def samplesAux (chal : List (Item F) → F) : Transcript F → Transcript F → List F
  | _, [] => []
  | acc, Item.sample :: rest => chal acc :: samplesAux chal (acc ++ [Item.sample]) rest
  | acc, x :: rest => samplesAux chal (acc ++ [x]) rest

/-- Fold every product term with a whole sequence of challenges in order. -/
def foldMany (cs : List F) (prods : List (F × List (List F))) :
    List (F × List (List F)) :=
  cs.foldl (fun p c => foldProds c p) prods

instance : Fact (Nat.Prime 101) := ⟨by norm_num⟩

/-- A small concrete prime field used for witness instances. -/
abbrev F101 := ZMod 101

/-- A concrete deterministic challenge function for witness instances. -/
def chalDemo : List (Item F101) → F101 := fun l => (l.length : F101) + 3

/-- The spec's concrete scenario: arity 2, a single product of the tables of
`f(x1,x2) = x1*x2` and `g(x1,x2) = 1` with coefficient 1; the true hypercube
sum is 1. -/
def polyDemo : ListOfProductsOfPolynomials F101 :=
  ⟨2, [(1, [[0, 0, 0, 1], [1, 1, 1, 1]])]⟩

/-- A concrete arity-1 product-list polynomial used in batched-mode witnesses. -/
def polyDemo1 : ListOfProductsOfPolynomials F101 :=
  ⟨1, [(2, [[3, 5]])]⟩

/-- A concrete arity-0 product-list polynomial (degenerate instance). -/
def polyDemo0 : ListOfProductsOfPolynomials F101 :=
  ⟨0, [(1, [[7]])]⟩

theorem prove_round_randomness (st : ProverState F) (v : Option F) :
    (prove_round st v).1.randomness = st.randomness ++ v.toList := by
  cases v <;> simp [prove_round]

theorem prove_round_products (st : ProverState F) (v : Option F) :
    (prove_round st v).1.products = foldMany v.toList st.products := by
  cases v <;> simp [prove_round, foldMany]

theorem prove_round_remaining (st : ProverState F) (v : Option F) :
    (prove_round st v).1.remaining = st.remaining - v.toList.length := by
  cases v <;> simp [prove_round]

theorem prove_round_max (st : ProverState F) (v : Option F) :
    (prove_round st v).1.max_multiplicands = st.max_multiplicands := by
  cases v <;> simp [prove_round]

theorem foldMany_append (a b : List F) (prods : List (F × List (List F))) :
    foldMany (a ++ b) prods = foldMany b (foldMany a prods) := by
  simp [foldMany, List.foldl_append]

theorem samplesAux_nil (chal : List (Item F) → F) (acc : Transcript F) :
    samplesAux chal acc [] = [] := rfl

theorem samplesAux_info (chal : List (Item F) → F) (acc : Transcript F)
    (i : PolynomialInfo) (rest : Transcript F) :
    samplesAux chal acc (Item.info i :: rest) =
      samplesAux chal (acc ++ [Item.info i]) rest := rfl

theorem samplesAux_msg (chal : List (Item F) → F) (acc : Transcript F)
    (e : List F) (rest : Transcript F) :
    samplesAux chal acc (Item.msg e :: rest) =
      samplesAux chal (acc ++ [Item.msg e]) rest := rfl

theorem samplesAux_sample (chal : List (Item F) → F) (acc : Transcript F)
    (rest : Transcript F) :
    samplesAux chal acc (Item.sample :: rest) =
      chal acc :: samplesAux chal (acc ++ [Item.sample]) rest := rfl

theorem msgBlocks_cons (m : ProverMsg F) (ms : List (ProverMsg F)) :
    msgBlocks (m :: ms) =
      Item.msg m.evaluations :: Item.sample :: msgBlocks ms := rfl

theorem samplesAux_append (chal : List (Item F) → F) (a : Transcript F) :
    ∀ (acc b : Transcript F),
    samplesAux chal acc (a ++ b) =
      samplesAux chal acc a ++ samplesAux chal (acc ++ a) b := by
  induction a with
  | nil => intro acc b; simp [samplesAux_nil]
  | cons x xs ih =>
    intro acc b
    cases x with
    | info i =>
      rw [List.cons_append, samplesAux_info, ih, samplesAux_info]
      simp [List.append_assoc]
    | msg e =>
      rw [List.cons_append, samplesAux_msg, ih, samplesAux_msg]
      simp [List.append_assoc]
    | sample =>
      rw [List.cons_append, samplesAux_sample, ih, samplesAux_sample, List.cons_append]
      simp [List.append_assoc]

theorem proveLoop_succ (chal : List (Item F) → F) (n : Nat) (st : ProverState F)
    (v : Option F) (tr : Transcript F) :
    proveLoop chal (n + 1) st v tr =
      ((prove_round st v).2 ::
        (proveLoop chal n (prove_round st v).1
          (some (chal (tr ++ [Item.msg (prove_round st v).2.evaluations])))
          (tr ++ [Item.msg (prove_round st v).2.evaluations] ++ [Item.sample])).1,
       (proveLoop chal n (prove_round st v).1
          (some (chal (tr ++ [Item.msg (prove_round st v).2.evaluations])))
          (tr ++ [Item.msg (prove_round st v).2.evaluations] ++ [Item.sample])).2) :=
  rfl

theorem proveLoop_spec (chal : List (Item F) → F) :
    ∀ (n : Nat) (st : ProverState F) (v : Option F) (tr : Transcript F),
    ∃ cs : List F,
      cs = samplesAux chal tr (msgBlocks (proveLoop chal n st v tr).1) ∧
      cs.length = n ∧
      (proveLoop chal n st v tr).1.length = n ∧
      (proveLoop chal n st v tr).2.2.2 = tr ++ msgBlocks (proveLoop chal n st v tr).1 ∧
      (proveLoop chal n st v tr).2.1.randomness =
        st.randomness ++ (v.toList ++ cs).dropLast ∧
      (proveLoop chal n st v tr).2.2.1 = (v.toList ++ cs).getLast? ∧
      (proveLoop chal n st v tr).2.1.products =
        foldMany ((v.toList ++ cs).dropLast) st.products ∧
      (proveLoop chal n st v tr).2.1.remaining =
        st.remaining - ((v.toList ++ cs).dropLast).length ∧
      (proveLoop chal n st v tr).2.1.max_multiplicands = st.max_multiplicands := by
  intro n
  induction n with
  | zero =>
    intro st v tr
    refine ⟨[], ?_, ?_, ?_, ?_, ?_, ?_, ?_, ?_, ?_⟩ <;>
      cases v <;> simp [proveLoop, msgBlocks, samplesAux, foldMany]
  | succ n ih =>
    intro st v tr
    rw [proveLoop_succ]
    dsimp only
    obtain ⟨cs', h1, h2, h3, h4, h5, h6, h7, h8, h9⟩ := ih (prove_round st v).1
      (some (chal (tr ++ [Item.msg (prove_round st v).2.evaluations])))
      (tr ++ [Item.msg (prove_round st v).2.evaluations] ++ [Item.sample])
    refine ⟨chal (tr ++ [Item.msg (prove_round st v).2.evaluations]) :: cs',
      ?_, ?_, ?_, ?_, ?_, ?_, ?_, ?_, ?_⟩
    · rw [msgBlocks_cons, samplesAux_msg, samplesAux_sample, h1]
    · simp [h2]
    · rw [List.length_cons, h3]
    · rw [msgBlocks_cons, h4]
      simp [List.append_assoc]
    · rw [h5, prove_round_randomness]
      cases v <;> simp [List.dropLast_append_cons]
    · rw [h6]
      cases v <;> simp [List.getLast?_append_cons]
    · rw [h7, prove_round_products, ← foldMany_append]
      cases v <;> simp [List.dropLast_append_cons, foldMany]
    · rw [h8, prove_round_remaining]
      cases v <;> simp [List.dropLast_append_cons, Nat.sub_sub] <;> omega
    · rw [h9, prove_round_max]

theorem msgBlocks2_cons (m0 m1 : ProverMsg F) (ms0 ms1 : List (ProverMsg F)) :
    msgBlocks2 (m0 :: ms0) (m1 :: ms1) =
      Item.msg m0.evaluations :: Item.msg m1.evaluations :: Item.sample ::
        msgBlocks2 ms0 ms1 := rfl

theorem sharedLoop_succ (chal : List (Item F) → F) (n : Nat) (s0 s1 : ProverState F)
    (v : Option F) (tr : Transcript F) :
    sharedLoop chal (n + 1) s0 s1 v tr =
      ((prove_round s0 v).2 ::
        (sharedLoop chal n (prove_round s0 v).1 (prove_round s1 v).1
          (some (chal (tr ++ [Item.msg (prove_round s0 v).2.evaluations] ++
            [Item.msg (prove_round s1 v).2.evaluations])))
          (tr ++ [Item.msg (prove_round s0 v).2.evaluations] ++
            [Item.msg (prove_round s1 v).2.evaluations] ++ [Item.sample])).1,
       (prove_round s1 v).2 ::
        (sharedLoop chal n (prove_round s0 v).1 (prove_round s1 v).1
          (some (chal (tr ++ [Item.msg (prove_round s0 v).2.evaluations] ++
            [Item.msg (prove_round s1 v).2.evaluations])))
          (tr ++ [Item.msg (prove_round s0 v).2.evaluations] ++
            [Item.msg (prove_round s1 v).2.evaluations] ++ [Item.sample])).2.1,
       (sharedLoop chal n (prove_round s0 v).1 (prove_round s1 v).1
          (some (chal (tr ++ [Item.msg (prove_round s0 v).2.evaluations] ++
            [Item.msg (prove_round s1 v).2.evaluations])))
          (tr ++ [Item.msg (prove_round s0 v).2.evaluations] ++
            [Item.msg (prove_round s1 v).2.evaluations] ++ [Item.sample])).2.2) :=
  rfl

theorem sharedLoop_spec (chal : List (Item F) → F) :
    ∀ (n : Nat) (s0 s1 : ProverState F) (v : Option F) (tr : Transcript F),
    ∃ cs : List F,
      cs = samplesAux chal tr
        (msgBlocks2 (sharedLoop chal n s0 s1 v tr).1 (sharedLoop chal n s0 s1 v tr).2.1) ∧
      cs.length = n ∧
      (sharedLoop chal n s0 s1 v tr).1.length = n ∧
      (sharedLoop chal n s0 s1 v tr).2.1.length = n ∧
      (sharedLoop chal n s0 s1 v tr).2.2.2.2.2 = tr ++
        msgBlocks2 (sharedLoop chal n s0 s1 v tr).1 (sharedLoop chal n s0 s1 v tr).2.1 ∧
      (sharedLoop chal n s0 s1 v tr).2.2.1.randomness =
        s0.randomness ++ (v.toList ++ cs).dropLast ∧
      (sharedLoop chal n s0 s1 v tr).2.2.2.1.randomness =
        s1.randomness ++ (v.toList ++ cs).dropLast ∧
      (sharedLoop chal n s0 s1 v tr).2.2.2.2.1 = (v.toList ++ cs).getLast? := by
  intro n
  induction n with
  | zero =>
    intro s0 s1 v tr
    refine ⟨[], ?_, ?_, ?_, ?_, ?_, ?_, ?_, ?_⟩ <;>
      cases v <;> simp [sharedLoop, msgBlocks2, samplesAux_nil]
  | succ n ih =>
    intro s0 s1 v tr
    rw [sharedLoop_succ]
    dsimp only
    obtain ⟨cs', h1, h2, h3, h4, h5, h6, h7, h8⟩ := ih (prove_round s0 v).1 (prove_round s1 v).1
      (some (chal (tr ++ [Item.msg (prove_round s0 v).2.evaluations] ++
        [Item.msg (prove_round s1 v).2.evaluations])))
      (tr ++ [Item.msg (prove_round s0 v).2.evaluations] ++
        [Item.msg (prove_round s1 v).2.evaluations] ++ [Item.sample])
    refine ⟨chal (tr ++ [Item.msg (prove_round s0 v).2.evaluations] ++
        [Item.msg (prove_round s1 v).2.evaluations]) :: cs',
      ?_, ?_, ?_, ?_, ?_, ?_, ?_, ?_⟩
    · rw [msgBlocks2_cons, samplesAux_msg, samplesAux_msg, samplesAux_sample, h1]
    · simp [h2]
    · rw [List.length_cons, h3]
    · rw [List.length_cons, h4]
    · rw [msgBlocks2_cons, h5]
      simp [List.append_assoc]
    · rw [h6, prove_round_randomness]
      cases v <;> simp [List.dropLast_append_cons]
    · rw [h7, prove_round_randomness]
      cases v <;> simp [List.dropLast_append_cons]
    · rw [h8]
      cases v <;> simp [List.getLast?_append_cons]

theorem foldTable_length (c : F) : ∀ t : List F, (foldTable c t).length = t.length / 2
  | [] => by simp [foldTable]
  | [a] => by simp [foldTable]
  | a :: b :: rest => by
    simp only [foldTable, List.length_cons, foldTable_length c rest]
    omega

theorem foldTable_getD (c : F) : ∀ (t : List F), 2 ∣ t.length → ∀ (i : Nat),
    (foldTable c t).getD i 0 = (1 - c) * t.getD (2 * i) 0 + c * t.getD (2 * i + 1) 0
  | [], _, i => by simp [foldTable]
  | [a], h, i => by simp at h
  | a :: b :: rest, h, i => by
    have h2 : 2 ∣ rest.length := by
      simp only [List.length_cons] at h
      omega
    cases i with
    | zero => simp [foldTable]
    | succ j =>
      simp only [foldTable, List.getD_cons_succ]
      rw [show 2 * (j + 1) = 2 * j + 1 + 1 by ring]
      simp only [List.getD_cons_succ]
      exact foldTable_getD c rest h2 j

theorem sum_range_two_mul (f : Nat → F) :
    ∀ n : Nat, ∑ x ∈ Finset.range (2 * n), f x =
      ∑ i ∈ Finset.range n, (f (2 * i) + f (2 * i + 1)) := by
  intro n
  induction n with
  | zero => simp
  | succ k ih =>
    rw [show 2 * (k + 1) = 2 * k + 1 + 1 by ring, Finset.sum_range_succ,
      Finset.sum_range_succ, ih, Finset.sum_range_succ]
    ring

theorem tableSum_split (half : Nat) (tbls : List (List F)) :
    (∑ i ∈ Finset.range half, (tbls.map (fun tbl => tbl.getD (2 * i) 0)).prod) +
    (∑ i ∈ Finset.range half, (tbls.map (fun tbl => tbl.getD (2 * i + 1) 0)).prod) =
    ∑ x ∈ Finset.range (2 * half), prodAt tbls x := by
  rw [sum_range_two_mul, ← Finset.sum_add_distrib]
  rfl

theorem roundEvalAt_zero_one (half : Nat) (prods : List (F × List (List F))) :
    roundEvalAt half prods 0 + roundEvalAt half prods 1 = polySum (2 * half) prods := by
  simp only [roundEvalAt, polySum, sub_zero, one_mul, zero_mul, add_zero, zero_add,
    sub_self]
  induction prods with
  | nil => simp
  | cons p ps ih =>
    simp only [List.map_cons, List.sum_cons]
    rw [add_add_add_comm, ih, ← mul_add, tableSum_split]

theorem polySum_foldProds (c : F) (half : Nat) :
    ∀ (prods : List (F × List (List F))),
    (∀ p ∈ prods, ∀ t ∈ p.2, 2 ∣ t.length) →
    polySum half (foldProds c prods) = roundEvalAt half prods c
  | [], _ => by simp [polySum, foldProds, roundEvalAt]
  | p :: ps, h => by
    have hps : ∀ q ∈ ps, ∀ t ∈ q.2, 2 ∣ t.length :=
      fun q hq => h q (List.mem_cons_of_mem _ hq)
    have hp : ∀ t ∈ p.2, 2 ∣ t.length := h p (List.mem_cons_self _ _)
    have tail := polySum_foldProds c half ps hps
    simp only [polySum, foldProds, roundEvalAt, List.map_cons, List.sum_cons] at tail ⊢
    rw [tail]
    congr 1
    congr 1
    refine Finset.sum_congr rfl (fun i _ => ?_)
    unfold prodAt
    rw [List.map_map]
    refine congrArg List.prod (List.map_congr_left (fun t ht => ?_))
    exact foldTable_getD c t (hp t ht) i

theorem foldMany_map (cs : List F) : ∀ (prods : List (F × List (List F))),
    foldMany cs prods = prods.map (fun p =>
      (p.1, p.2.map (fun t => cs.foldl (fun tb ch => foldTable ch tb) t))) := by
  induction cs with
  | nil =>
    intro prods
    simp [foldMany]
  | cons ch cs ih =>
    intro prods
    have : foldMany (ch :: cs) prods = foldMany cs (foldProds ch prods) := rfl
    rw [this, ih, foldProds, List.map_map]
    refine List.map_congr_left (fun p hp => ?_)
    simp [List.map_map]

theorem evalPoly_foldMany (poly : ListOfProductsOfPolynomials F) (pt : List F) :
    evalPoly poly pt = polySum 1 (foldMany pt poly.products) := by
  rw [foldMany_map]
  unfold evalPoly polySum
  rw [List.map_map]
  refine congrArg List.sum (List.map_congr_left (fun p hp => ?_))
  simp only [Function.comp, Finset.sum_range_one, prodAt, List.map_map]
  rfl

theorem foldProds_counts (c : F) (prods : List (F × List (List F))) (m : Nat)
    (h : ∀ p ∈ prods, p.2.length ≤ m) :
    ∀ p ∈ foldProds c prods, p.2.length ≤ m := by
  intro p hp
  obtain ⟨q, hq, rfl⟩ := List.mem_map.mp hp
  simpa using h q hq

theorem foldProds_tables (c : F) (prods : List (F × List (List F))) (k : Nat)
    (h : ∀ p ∈ prods, ∀ t ∈ p.2, t.length = 2 ^ (k + 1)) :
    ∀ p ∈ foldProds c prods, ∀ t ∈ p.2, t.length = 2 ^ k := by
  intro p hp t ht
  obtain ⟨q, hq, rfl⟩ := List.mem_map.mp hp
  simp only [List.mem_map] at ht
  obtain ⟨t0, ht0, rfl⟩ := ht
  rw [foldTable_length, h q hq t0 ht0, pow_succ, Nat.mul_div_cancel]
  omega

theorem le_foldr_max : ∀ (l : List Nat), ∀ x ∈ l, x ≤ l.foldr max 0
  | a :: l, x, hx => by
    rcases List.mem_cons.mp hx with rfl | h
    · exact le_max_left _ _
    · exact (le_foldr_max l x h).trans (le_max_right _ _)

theorem degree_list_sum_le (D : WithBot ℕ) :
    ∀ l : List (Polynomial F), (∀ q ∈ l, q.degree ≤ D) → l.sum.degree ≤ D
  | [], _ => by simpa using bot_le
  | a :: l, h => by
    have ha : a.degree ≤ D := h a (List.mem_cons_self _ _)
    have hl : l.sum.degree ≤ D :=
      degree_list_sum_le D l (fun q hq => h q (List.mem_cons_of_mem _ hq))
    simpa using (Polynomial.degree_add_le a l.sum).trans (max_le ha hl)

theorem degree_list_prod_le_length :
    ∀ l : List (Polynomial F), (∀ q ∈ l, q.degree ≤ 1) →
      l.prod.degree ≤ (l.length : WithBot ℕ)
  | [], _ => by simpa using Polynomial.degree_one_le
  | a :: l, h => by
    have ha : a.degree ≤ 1 := h a (List.mem_cons_self _ _)
    have hl : l.prod.degree ≤ (l.length : WithBot ℕ) :=
      degree_list_prod_le_length l (fun q hq => h q (List.mem_cons_of_mem _ hq))
    simp only [List.prod_cons, List.length_cons]
    calc (a * l.prod).degree ≤ a.degree + l.prod.degree := Polynomial.degree_mul_le _ _
      _ ≤ 1 + (l.length : WithBot ℕ) := add_le_add ha hl
      _ = ((l.length + 1 : ℕ) : WithBot ℕ) := by
          rw [add_comm]
          exact_mod_cast rfl

theorem roundEvalAt_is_poly (half m : Nat) (prods : List (F × List (List F)))
    (hcount : ∀ p ∈ prods, p.2.length ≤ m) :
    ∃ q : Polynomial F, q.degree ≤ (m : WithBot ℕ) ∧
      ∀ x : F, q.eval x = roundEvalAt half prods x := by
  refine ⟨(prods.map (fun p => Polynomial.C p.1 *
    ∑ i ∈ Finset.range half,
      (p.2.map (fun tbl => Polynomial.C (tbl.getD (2 * i) 0) +
        Polynomial.C (tbl.getD (2 * i + 1) 0 - tbl.getD (2 * i) 0) *
          Polynomial.X)).prod)).sum, ?_, ?_⟩
  · refine degree_list_sum_le _ _ (fun q hq => ?_)
    obtain ⟨p, hp, rfl⟩ := List.mem_map.mp hq
    refine (Polynomial.degree_mul_le _ _).trans ?_
    have hC : (Polynomial.C p.1).degree ≤ 0 := Polynomial.degree_C_le
    have hS : (∑ i ∈ Finset.range half,
        (p.2.map (fun tbl : List F => Polynomial.C (tbl.getD (2 * i) 0) +
          Polynomial.C (tbl.getD (2 * i + 1) 0 - tbl.getD (2 * i) 0) *
            Polynomial.X)).prod).degree ≤ (m : WithBot ℕ) := by
      refine (Polynomial.degree_sum_le _ _).trans ?_
      refine Finset.sup_le (fun i _ => ?_)
      refine (degree_list_prod_le_length _ (fun q hq => ?_)).trans ?_
      · obtain ⟨tbl, htbl, rfl⟩ := List.mem_map.mp hq
        refine (Polynomial.degree_add_le _ _).trans ?_
        refine max_le (Polynomial.degree_C_le.trans zero_le_one) ?_
        refine (Polynomial.degree_mul_le _ _).trans ?_
        calc (Polynomial.C (tbl.getD (2* i + 1) 0 - tbl.getD (2 * i) 0)).degree +
            Polynomial.X.degree ≤ 0 + 1 :=
              add_le_add Polynomial.degree_C_le Polynomial.degree_X_le
          _ = 1 := by simp
      · simp only [List.length_map]
        exact_mod_cast hcount p hp
    calc (Polynomial.C p.1).degree + _ ≤ 0 + (m : WithBot ℕ) := add_le_add hC hS
      _ = (m : WithBot ℕ) := by simp
  · intro x
    unfold roundEvalAt
    have := map_list_sum (Polynomial.evalRingHom x)
      (prods.map (fun p => Polynomial.C p.1 *
        ∑ i ∈ Finset.range half,
          (p.2.map (fun tbl => Polynomial.C (tbl.getD (2 * i) 0) +
            Polynomial.C (tbl.getD (2 * i + 1) 0 - tbl.getD (2 * i) 0) *
              Polynomial.X)).prod))
    simp only [Polynomial.coe_evalRingHom] at this
    rw [this, List.map_map]
    refine congrArg List.sum (List.map_congr_left (fun p hp => ?_))
    simp only [Function.comp_apply, Polynomial.eval_mul, Polynomial.eval_C,
      Polynomial.eval_finset_sum]
    refine congrArg (fun z => p.1 * z) (Finset.sum_congr rfl (fun i _ => ?_))
    have := map_list_prod (Polynomial.evalRingHom x)
      (p.2.map (fun tbl => Polynomial.C (tbl.getD (2 * i) 0) +
        Polynomial.C (tbl.getD (2 * i + 1) 0 - tbl.getD (2 * i) 0) * Polynomial.X))
    simp only [Polynomial.coe_evalRingHom] at this
    rw [this, List.map_map]
    refine congrArg List.prod (List.map_congr_left (fun tbl htbl => ?_))
    simp only [Function.comp_apply, Polynomial.eval_add, Polynomial.eval_mul,
      Polynomial.eval_C, Polynomial.eval_X]
    ring

theorem getD_ofFn {n : Nat} (f : Fin n → F) (i : Nat) (hi : i < n) :
    (List.ofFn f).getD i 0 = f ⟨i, hi⟩ := by
  have hlen : i < (List.ofFn f).length := by simpa using hi
  rw [List.getD_eq_getElem _ _ hlen, List.getElem_ofFn]

theorem interp_eq_eval_interpolate (evals : List F) (x : F) :
    interp evals x = Polynomial.eval x
      (Lagrange.interpolate (Finset.range evals.length) (fun i : ℕ => (i : F))
        (fun i => evals.getD i 0)) := by
  rw [Lagrange.interpolate_apply, Polynomial.eval_finset_sum]
  refine Finset.sum_congr rfl (fun i hi => ?_)
  rw [Polynomial.eval_mul, Polynomial.eval_C, Lagrange.basis, Polynomial.eval_prod]
  refine congrArg (fun z => evals.getD i 0 * z) (Finset.prod_congr rfl (fun j hj => ?_))
  rw [Lagrange.basisDivisor, Polynomial.eval_mul, Polynomial.eval_C,
    Polynomial.eval_sub, Polynomial.eval_X, Polynomial.eval_C]
  rw [div_eq_mul_inv, mul_comm]

theorem interp_exact (m : Nat) (hinj : castInjUpTo F m) (q : Polynomial F)
    (hdeg : q.degree ≤ (m : WithBot ℕ)) (g : Fin (m + 1) → F)
    (hg : ∀ t : Fin (m + 1), g t = q.eval ((t : ℕ) : F)) (x : F) :
    interp (List.ofFn g) x = q.eval x := by
  have hinj' : Set.InjOn (fun i : ℕ => (i : F)) (Finset.range (m + 1)) := by
    intro a ha b hb hab
    exact hinj a (by simpa using ha) b (by simpa using hb) hab
  have hdeg' : q.degree < (Finset.range (m + 1)).card := by
    rw [Finset.card_range]
    refine lt_of_le_of_lt hdeg ?_
    exact_mod_cast Nat.lt_succ_self m
  rw [interp_eq_eval_interpolate]
  have hval : Lagrange.interpolate (Finset.range ((List.ofFn g).length))
      (fun i : ℕ => (i : F)) (fun i => (List.ofFn g).getD i 0) =
      Lagrange.interpolate (Finset.range (m + 1)) (fun i : ℕ => (i : F))
        (fun i => q.eval ((i : ℕ) : F)) := by
    rw [List.length_ofFn]
    rw [Lagrange.interpolate_apply, Lagrange.interpolate_apply]
    refine Finset.sum_congr rfl (fun i hi => ?_)
    have hi' : i < m + 1 := Finset.mem_range.mp hi
    rw [getD_ofFn g i hi', hg ⟨i, hi'⟩]
  rw [hval, ← Lagrange.eq_interpolate hinj' hdeg']

theorem interp_roundEvalAt (m : Nat) (hinj : castInjUpTo F m) (half : Nat)
    (prods : List (F × List (List F))) (hcount : ∀ p ∈ prods, p.2.length ≤ m)
    (x : F) :
    interp (List.ofFn (fun t : Fin (m + 1) =>
      roundEvalAt half prods ((t : ℕ) : F))) x = roundEvalAt half prods x := by
  obtain ⟨q, hqdeg, hqeval⟩ := roundEvalAt_is_poly half m prods hcount
  rw [interp_exact m hinj q hqdeg _ (fun t => (hqeval _).symm) x, hqeval]

theorem prove_round_msg_eval (st : ProverState F) (v : Option F) :
    (prove_round st v).2.evaluations =
      List.ofFn (fun t : Fin (st.max_multiplicands + 1) =>
        roundEvalAt (2 ^ ((prove_round st v).1.remaining - 1))
          ((prove_round st v).1.products) ((t : ℕ) : F)) := by
  cases v <;> rfl

theorem verifyLoop_cons (chal : List (Item F) → F) (r : Nat) (m0 : ProverMsg F)
    (rest : List (ProverMsg F)) (vs : VerifierState F) (tr : Transcript F) :
    verifyLoop chal (r + 1) (m0 :: rest) vs tr =
      verifyLoop chal r rest (vUpdate m0 vs (chal (tr ++ [Item.msg m0.evaluations])))
        (tr ++ [Item.msg m0.evaluations] ++ [Item.sample]) := rfl

theorem vUpdate_pass (vs : VerifierState F) (msg : ProverMsg F) (c' e : F)
    (hlen : msg.evaluations.length = vs.max_multiplicands + 1)
    (hrun : vs.running = some e)
    (he : msg.evaluations.getD 0 0 + msg.evaluations.getD 1 0 = e) :
    vUpdate msg vs c' = { vs with
      randomness := vs.randomness ++ [c'],
      running := some (interp msg.evaluations c') } := by
  unfold vUpdate
  rw [if_pos hlen, hrun]
  dsimp only
  rw [if_pos he]

theorem vUpdate_round0 (vs : VerifierState F) (msg : ProverMsg F) (c' : F)
    (hlen : msg.evaluations.length = vs.max_multiplicands + 1)
    (hrun : vs.running = none) :
    vUpdate msg vs c' = { vs with
      round0 := some (msg.evaluations.getD 0 0 + msg.evaluations.getD 1 0),
      randomness := vs.randomness ++ [c'],
      running := some (interp msg.evaluations c') } := by
  unfold vUpdate
  rw [if_pos hlen, hrun]

theorem loop_sync (chal : List (Item F) → F) (m : Nat) (hm : 1 ≤ m)
    (hinj : castInjUpTo F m) (s0 : F) :
    ∀ (n : Nat) (st : ProverState F) (vs : VerifierState F) (tr : Transcript F) (c : F),
    st.max_multiplicands = m →
    st.remaining = n + 1 →
    (∀ p ∈ st.products, p.2.length ≤ m) →
    (∀ p ∈ st.products, ∀ t ∈ p.2, t.length = 2 ^ (n + 1)) →
    vs.max_multiplicands = m →
    vs.failed = none →
    vs.round0 = some s0 →
    vs.randomness = st.randomness ++ [c] →
    vs.running = some (roundEvalAt (2 ^ n) st.products c) →
    ∃ (vsf : VerifierState F) (cf : F),
      verifyLoop chal n (proveLoop chal n st (some c) tr).1 vs tr =
        Outcome.ok (vsf, (proveLoop chal n st (some c) tr).2.2.2) ∧
      (proveLoop chal n st (some c) tr).2.2.1 = some cf ∧
      vsf.randomness = (proveLoop chal n st (some c) tr).2.1.randomness ++ [cf] ∧
      vsf.running =
        some (roundEvalAt 1 (proveLoop chal n st (some c) tr).2.1.products cf) ∧
      vsf.round0 = some s0 ∧
      vsf.failed = none ∧
      (∀ p ∈ (proveLoop chal n st (some c) tr).2.1.products, p.2.length ≤ m) ∧
      (∀ p ∈ (proveLoop chal n st (some c) tr).2.1.products, ∀ t ∈ p.2,
        t.length = 2 ^ 1) := by
  intro n
  induction n with
  | zero =>
    intro st vs tr c hmax hrem hcount htbl vmax vfail vr0 vrand vrun
    exact ⟨vs, c, rfl, rfl, vrand, vrun, vr0, vfail, hcount, htbl⟩
  | succ k ih =>
    intro st vs tr c hmax hrem hcount htbl vmax vfail vr0 vrand vrun
    rw [proveLoop_succ]
    dsimp only
    rcases hpr : prove_round st (some c) with ⟨st1, msg⟩
    dsimp only
    have hrem1 : st1.remaining = k + 1 := by
      have h := prove_round_remaining st (some c)
      rw [hpr] at h
      dsimp only at h
      rw [h, hrem]
      simp [Option.toList]
    have hmax1 : st1.max_multiplicands = m := by
      have h := prove_round_max st (some c)
      rw [hpr] at h
      dsimp only at h
      rw [h, hmax]
    have hprods1 : st1.products = foldProds c st.products := by
      have h := prove_round_products st (some c)
      rw [hpr] at h
      dsimp only at h
      rw [h]
      rfl
    have hrand1 : st1.randomness = st.randomness ++ [c] := by
      have h := prove_round_randomness st (some c)
      rw [hpr] at h
      dsimp only at h
      rw [h]
      rfl
    have hcount1 : ∀ p ∈ st1.products, p.2.length ≤ m := by
      rw [hprods1]
      exact foldProds_counts c _ m hcount
    have htbl1 : ∀ p ∈ st1.products, ∀ t ∈ p.2, t.length = 2 ^ (k + 1) := by
      rw [hprods1]
      exact foldProds_tables c _ (k + 1) htbl
    have hdvd : ∀ p ∈ st.products, ∀ t ∈ p.2, 2 ∣ t.length := by
      intro p hp t ht
      rw [htbl p hp t ht]
      exact dvd_pow_self 2 (Nat.succ_ne_zero _)
    have hmsgev : msg.evaluations = List.ofFn (fun t : Fin (m + 1) =>
        roundEvalAt (2 ^ k) st1.products ((t : ℕ) : F)) := by
      have h := prove_round_msg_eval st (some c)
      rw [hpr] at h
      dsimp only at h
      rw [h, hmax, hrem1]
      simp
    have hmsglen : msg.evaluations.length = vs.max_multiplicands + 1 := by
      rw [hmsgev, List.length_ofFn, vmax]
    have h0 : msg.evaluations.getD 0 0 = roundEvalAt (2 ^ k) st1.products 0 := by
      rw [hmsgev, getD_ofFn _ 0 (by omega)]
      norm_num
    have h1 : msg.evaluations.getD 1 0 = roundEvalAt (2 ^ k) st1.products 1 := by
      rw [hmsgev, getD_ofFn _ 1 (by omega)]
      norm_num
    have he : msg.evaluations.getD 0 0 + msg.evaluations.getD 1 0 =
        roundEvalAt (2 ^ (k + 1)) st.products c := by
      rw [h0, h1, roundEvalAt_zero_one, hprods1,
        show (2 : ℕ) * 2 ^ k = 2 ^ (k + 1) by rw [pow_succ]; ring]
      exact polySum_foldProds c _ st.products hdvd
    have hupdate : vUpdate msg vs (chal (tr ++ [Item.msg msg.evaluations])) =
        { vs with
          randomness := vs.randomness ++ [chal (tr ++ [Item.msg msg.evaluations])],
          running := some (interp msg.evaluations
            (chal (tr ++ [Item.msg msg.evaluations]))) } :=
      vUpdate_pass vs msg _ _ hmsglen vrun (he.trans rfl)
    have hinterp : interp msg.evaluations (chal (tr ++ [Item.msg msg.evaluations])) =
        roundEvalAt (2 ^ k) st1.products (chal (tr ++ [Item.msg msg.evaluations])) := by
      rw [hmsgev]
      exact interp_roundEvalAt m hinj (2 ^ k) st1.products hcount1 _
    obtain ⟨vsf, cf, H1, H2, H3, H4, H5, H6, H7, H8⟩ := ih st1
      { vs with
        randomness := vs.randomness ++ [chal (tr ++ [Item.msg msg.evaluations])],
        running := some (interp msg.evaluations
          (chal (tr ++ [Item.msg msg.evaluations]))) }
      (tr ++ [Item.msg msg.evaluations] ++ [Item.sample])
      (chal (tr ++ [Item.msg msg.evaluations]))
      hmax1 hrem1 hcount1 htbl1 vmax vfail vr0
      (by
        dsimp only
        rw [hrand1, ← vrand])
      (by
        dsimp only
        rw [hinterp])
    refine ⟨vsf, cf, ?_, H2, H3, H4, H5, H6, H7, H8⟩
    rw [verifyLoop_cons, hupdate]
    exact H1

theorem completeness_subprotocol (chal : List (Item F) → F)
    (poly : ListOfProductsOfPolynomials F) (tr : Transcript F)
    (hnv : 1 ≤ poly.num_variables)
    (hm : 1 ≤ maxMultiplicands poly)
    (htbl : ∀ p ∈ poly.products, ∀ t ∈ p.2, t.length = 2 ^ poly.num_variables)
    (hinj : castInjUpTo F (maxMultiplicands poly)) :
    ∃ (pf : Proof F) (st : ProverState F) (trf : Transcript F) (sub : SubClaim F),
      prove_as_subprotocol chal tr poly = Outcome.ok ((pf, st), trf) ∧
      verify_as_subprotocol chal tr (polyInfo poly) (trueSum poly) pf =
        Outcome.ok (sub, trf) ∧
      sub.point = st.randomness ∧
      sub.expected_value = evalPoly poly sub.point := by
  obtain ⟨n', hn'⟩ : ∃ n', poly.num_variables = n' + 1 :=
    ⟨poly.num_variables - 1, by omega⟩
  have hcount : ∀ p ∈ poly.products, p.2.length ≤ maxMultiplicands poly := by
    intro p hp
    exact le_foldr_max _ _ (List.mem_map_of_mem _ hp)
  have hP_rem : (prove_round (prover_init poly) none).1.remaining = n' + 1 := by
    rw [prove_round_remaining]
    simpa [prover_init] using hn'
  have hP_max : (prove_round (prover_init poly) none).1.max_multiplicands =
      maxMultiplicands poly := by
    rw [prove_round_max]
    rfl
  have hP_prod : (prove_round (prover_init poly) none).1.products = poly.products := by
    rw [prove_round_products]
    rfl
  have hP_rand : (prove_round (prover_init poly) none).1.randomness = [] := by
    rw [prove_round_randomness]
    rfl
  have hMev : (prove_round (prover_init poly) none).2.evaluations =
      List.ofFn (fun t : Fin (maxMultiplicands poly + 1) =>
        roundEvalAt (2 ^ n') poly.products ((t : ℕ) : F)) := by
    rw [prove_round_msg_eval, hP_rem, hP_prod]
    simp [prover_init]
  have hMlen : (prove_round (prover_init poly) none).2.evaluations.length =
      (verifier_init (polyInfo poly) : VerifierState F).max_multiplicands + 1 := by
    rw [hMev, List.length_ofFn]
    rfl
  have hdvd : ∀ p ∈ poly.products, ∀ t ∈ p.2, 2 ∣ t.length := by
    intro p hp t ht
    rw [htbl p hp t ht, hn']
    exact dvd_pow_self 2 (Nat.succ_ne_zero _)
  have he01 : (prove_round (prover_init poly) none).2.evaluations.getD 0 0 +
      (prove_round (prover_init poly) none).2.evaluations.getD 1 0 =
      trueSum poly := by
    rw [hMev, getD_ofFn _ 0 (by omega), getD_ofFn _ 1 (by omega)]
    dsimp only
    rw [Nat.cast_zero, Nat.cast_one, roundEvalAt_zero_one, trueSum, hn',
      show (2 : ℕ) * 2 ^ n' = 2 ^ (n' + 1) by rw [pow_succ]; ring]
  have hinterp0 : interp (prove_round (prover_init poly) none).2.evaluations
      (chal (tr ++ [Item.info (polyInfo poly)] ++
        [Item.msg (prove_round (prover_init poly) none).2.evaluations])) =
      roundEvalAt (2 ^ n') poly.products
        (chal (tr ++ [Item.info (polyInfo poly)] ++
          [Item.msg (prove_round (prover_init poly) none).2.evaluations])) := by
    rw [hMev]
    exact interp_roundEvalAt _ hinj _ _ hcount _
  have hup0 : vUpdate (prove_round (prover_init poly) none).2
      (verifier_init (polyInfo poly))
      (chal (tr ++ [Item.info (polyInfo poly)] ++
        [Item.msg (prove_round (prover_init poly) none).2.evaluations])) =
      ⟨(polyInfo poly).num_variables, (polyInfo poly).max_multiplicands,
       [chal (tr ++ [Item.info (polyInfo poly)] ++
         [Item.msg (prove_round (prover_init poly) none).2.evaluations])],
       some (roundEvalAt (2 ^ n') poly.products
         (chal (tr ++ [Item.info (polyInfo poly)] ++
           [Item.msg (prove_round (prover_init poly) none).2.evaluations]))),
       some (trueSum poly), none⟩ := by
    rw [vUpdate_round0 _ _ _ hMlen rfl, he01, hinterp0]
    simp [verifier_init]
  obtain ⟨vsf, cf, H1, H2, H3, H4, H5, H6, H7, H8⟩ :=
    loop_sync chal (maxMultiplicands poly) hm hinj (trueSum poly) n'
      (prove_round (prover_init poly) none).1
      ⟨(polyInfo poly).num_variables, (polyInfo poly).max_multiplicands,
       [chal (tr ++ [Item.info (polyInfo poly)] ++
         [Item.msg (prove_round (prover_init poly) none).2.evaluations])],
       some (roundEvalAt (2 ^ n') poly.products
         (chal (tr ++ [Item.info (polyInfo poly)] ++
           [Item.msg (prove_round (prover_init poly) none).2.evaluations]))),
       some (trueSum poly), none⟩
      (tr ++ [Item.info (polyInfo poly)] ++
        [Item.msg (prove_round (prover_init poly) none).2.evaluations] ++ [Item.sample])
      (chal (tr ++ [Item.info (polyInfo poly)] ++
        [Item.msg (prove_round (prover_init poly) none).2.evaluations]))
      hP_max hP_rem
      (by rw [hP_prod]; exact hcount)
      (by rw [hP_prod]; intro p hp t ht; rw [htbl p hp t ht, hn'])
      rfl rfl rfl
      (by rw [hP_rand]; simp)
      (by rw [hP_prod])
  obtain ⟨cs, g1, g2, g3, g4, g5, g6, g7, g8, g9⟩ :=
    proveLoop_spec chal n' (prove_round (prover_init poly) none).1
      (some (chal (tr ++ [Item.info (polyInfo poly)] ++
        [Item.msg (prove_round (prover_init poly) none).2.evaluations])))
      (tr ++ [Item.info (polyInfo poly)] ++
        [Item.msg (prove_round (prover_init poly) none).2.evaluations] ++ [Item.sample])
  rcases hR : proveLoop chal n' (prove_round (prover_init poly) none).1
      (some (chal (tr ++ [Item.info (polyInfo poly)] ++
        [Item.msg (prove_round (prover_init poly) none).2.evaluations])))
      (tr ++ [Item.info (polyInfo poly)] ++
        [Item.msg (prove_round (prover_init poly) none).2.evaluations] ++ [Item.sample])
    with ⟨msgs1, stf1, vmsg1, trf1⟩
  rw [hR] at H1 H2 H3 H4 H7 H8 g5 g6 g7
  dsimp only at H1 H2 H3 H4 H7 H8 g5 g6 g7
  simp only [Option.toList, List.singleton_append, hP_rand, hP_prod,
    List.nil_append] at g5 g6 g7
  have hlast : (chal (tr ++ [Item.info (polyInfo poly)] ++
      [Item.msg (prove_round (prover_init poly) none).2.evaluations]) :: cs).getLast? =
      some cf := by
    rw [← g6]
    exact H2
  have hdvd_f : ∀ p ∈ stf1.products, ∀ t ∈ p.2, 2 ∣ t.length := by
    intro p hp t ht
    rw [H8 p hp t ht]
    exact dvd_pow_self 2 one_ne_zero
  have hval : roundEvalAt 1 stf1.products cf =
      evalPoly poly (vsf.randomness) := by
    rw [H3, g5, ← (polySum_foldProds cf 1 stf1.products hdvd_f), g7]
    rw [show foldProds cf (foldMany (chal (tr ++ [Item.info (polyInfo poly)] ++
        [Item.msg (prove_round (prover_init poly) none).2.evaluations]) ::
          cs).dropLast poly.products) =
      foldMany ((chal (tr ++ [Item.info (polyInfo poly)] ++
        [Item.msg (prove_round (prover_init poly) none).2.evaluations]) ::
          cs).dropLast ++ [cf]) poly.products from (foldMany_append _ [cf] _).symm]
    rw [List.dropLast_append_getLast? cf hlast, ← evalPoly_foldMany]
  have eqProve : prove_as_subprotocol chal tr poly =
      Outcome.ok (((prove_round (prover_init poly) none).2 :: msgs1,
        { stf1 with randomness := stf1.randomness ++ [cf] }), trf1) := by
    unfold prove_as_subprotocol
    rw [hn']
    dsimp only
    rw [proveLoop_succ, hR]
    dsimp only
    rw [H2]
  have eqCheck : check_and_generate_subclaim vsf (trueSum poly) =
      Except.ok ⟨vsf.randomness, roundEvalAt 1 stf1.products cf⟩ := by
    unfold check_and_generate_subclaim
    rw [H6, H5, H4]
    simp
  have eqVerify : verify_as_subprotocol chal tr (polyInfo poly) (trueSum poly)
      ((prove_round (prover_init poly) none).2 :: msgs1) =
      Outcome.ok (⟨vsf.randomness, roundEvalAt 1 stf1.products cf⟩, trf1) := by
    unfold verify_as_subprotocol
    rw [show (polyInfo poly).num_variables = n' + 1 from hn']
    dsimp only
    rw [verifyLoop_cons, hup0, H1]
    dsimp only
    rw [eqCheck]
  refine ⟨(prove_round (prover_init poly) none).2 :: msgs1,
    { stf1 with randomness := stf1.randomness ++ [cf] }, trf1,
    ⟨vsf.randomness, roundEvalAt 1 stf1.products cf⟩,
    eqProve, eqVerify, H3, hval⟩

/-- C1: completeness — for every valid product-list polynomial (at least one
variable, at least one multiplicand, tables of size `2^num_variables`, over a
field distinguishing the interpolation nodes), verifying the true hypercube
sum against a proof produced by `prove` succeeds, and the returned sub-claim's
`expected_value` equals the polynomial evaluated at the sub-claim's point. -/
theorem claim_C1_completeness (chal : List (Item F) → F)
    (poly : ListOfProductsOfPolynomials F)
    (hnv : 1 ≤ poly.num_variables)
    (hm : 1 ≤ maxMultiplicands poly)
    (htbl : ∀ p ∈ poly.products, ∀ t ∈ p.2, t.length = 2 ^ poly.num_variables)
    (hinj : castInjUpTo F (maxMultiplicands poly)) :
    ∃ (pf : Proof F) (sub : SubClaim F),
      prove chal poly = Outcome.ok pf ∧
      verify chal (polyInfo poly) (trueSum poly) pf = Outcome.ok sub ∧
      sub.expected_value = evalPoly poly sub.point := by
  obtain ⟨pf, st, trf, sub, hp, hv, hpt, hval⟩ :=
    completeness_subprotocol chal poly [] hnv hm htbl hinj
  refine ⟨pf, sub, ?_, ?_, hval⟩
  · unfold prove
    rw [hp]
  · unfold verify
    rw [hv]

/-- C1 witness: the spec's concrete arity-2 scenario satisfies all validity
hypotheses, so its proof verifies against the true sum 1 and the sub-claim
value matches the polynomial at the sub-claim point. -/
theorem claim_C1_completeness_witness :
    (1 ≤ polyDemo.num_variables ∧ 1 ≤ maxMultiplicands polyDemo ∧
      (∀ p ∈ polyDemo.products, ∀ t ∈ p.2, t.length = 2 ^ polyDemo.num_variables) ∧
      castInjUpTo F101 (maxMultiplicands polyDemo)) ∧
    ∃ (pf : Proof F101) (sub : SubClaim F101),
      prove chalDemo polyDemo = Outcome.ok pf ∧
      verify chalDemo (polyInfo polyDemo) (trueSum polyDemo) pf = Outcome.ok sub ∧
      sub.expected_value = evalPoly polyDemo sub.point :=
  ⟨⟨by decide, by decide, by decide, by decide⟩,
   claim_C1_completeness chalDemo polyDemo (by decide) (by decide) (by decide)
     (by decide)⟩

/-- C2: `extract_sum(proof)` returns `proof[0].evaluations[0] +
proof[0].evaluations[1]` whenever those entries exist, and its result depends
only on element 0 of the proof: two proofs agreeing on their first round
message yield the same extracted sum. -/
theorem claim_C2_extract_sum
    (p : Proof F) :
    (∀ (m : ProverMsg F) (a b : F), p.get? 0 = some m →
      m.evaluations.get? 0 = some a → m.evaluations.get? 1 = some b →
      extract_sum p = some (a + b)) ∧
    (∀ q : Proof F, p.get? 0 = q.get? 0 → extract_sum p = extract_sum q) := by
  constructor
  · intro m a b hp h0 h1
    simp only [extract_sum, hp, h0, h1]
  · intro q hpq
    simp only [extract_sum, hpq]

/-- C2 witness: on the concrete proof whose first message carries evaluations
`[1, 2]`, the extracted sum is `1 + 2`, and a second proof with the same first
message extracts the same sum. -/
theorem claim_C2_extract_sum_witness :
    extract_sum [(⟨[1, 2]⟩ : ProverMsg F101)] = some (1 + 2) ∧
    extract_sum [(⟨[1, 2]⟩ : ProverMsg F101)] =
      extract_sum [⟨[1, 2]⟩, ⟨[50, 60]⟩] :=
  ⟨(claim_C2_extract_sum [(⟨[1, 2]⟩ : ProverMsg F101)]).1 ⟨[1, 2]⟩ 1 2 rfl rfl rfl,
   (claim_C2_extract_sum [(⟨[1, 2]⟩ : ProverMsg F101)]).2 [⟨[1, 2]⟩, ⟨[50, 60]⟩] rfl⟩

/-- C9: `extract_sum` is total exactly on proofs that are non-empty and whose
first round message carries at least 2 evaluations; on an empty proof or a
first message with fewer than 2 evaluations it panics by out-of-bounds
indexing (modelled as `none`). -/
theorem claim_C9_extract_sum_totality
    (p : Proof F) :
    extract_sum p = none ↔
      p = [] ∨ ∃ m p', p = m :: p' ∧ m.evaluations.length < 2 := by
  rcases p with _ | ⟨⟨evals⟩, p'⟩
  · simp [extract_sum]
  · rcases evals with _ | ⟨a, _ | ⟨b, rest⟩⟩
    · simp [extract_sum]
    · simp [extract_sum]
    · simp only [extract_sum, List.get?]
      constructor
      · intro h
        exact absurd h (by simp)
      · rintro (h | ⟨m, p'', hmp, hlen⟩)
        · exact absurd h (by simp)
        · rw [List.cons_eq_cons] at hmp
          rcases hmp with ⟨hm, _⟩
          rw [← hm] at hlen
          exact absurd hlen (by simp)

/-- C7: calling `multi_degree_prove_as_subprotocol` with `polynomial_0`'s
arity not strictly greater than `polynomial_1`'s fails fatally at call time:
the result is a panic carrying the unchanged transcript, so no transcript
feeding or round work has occurred. -/
theorem claim_C7_shape_mismatch_fatal
    (chal : List (Item F) → F) (tr : Transcript F)
    (p0 p1 : ListOfProductsOfPolynomials F)
    (h : ¬ p0.num_variables > p1.num_variables) :
    multi_degree_prove_as_subprotocol chal tr p0 p1 = Outcome.panic tr := by
  simp only [multi_degree_prove_as_subprotocol, if_neg h]

/-- C7 witness: at the concrete pair with arities 1 and 2 (not strictly
descending) the batched prover panics immediately with an untouched
transcript. -/
theorem claim_C7_shape_mismatch_fatal_witness :
    ¬ polyDemo1.num_variables > polyDemo.num_variables ∧
    multi_degree_prove_as_subprotocol chalDemo [Item.sample] polyDemo1 polyDemo =
      Outcome.panic [Item.sample] :=
  ⟨by decide,
   claim_C7_shape_mismatch_fatal chalDemo [Item.sample] polyDemo1 polyDemo (by decide)⟩

/-- C10: `prove_as_subprotocol` on a polynomial with zero variables panics
(the round loop never runs, so the final challenge `unwrap` fails), and
`multi_degree_prove_as_subprotocol` panics whenever `polynomial_1` has zero
variables. -/
theorem claim_C10_zero_variables_panics
    (chal : List (Item F) → F) :
    (∀ (tr : Transcript F) (poly : ListOfProductsOfPolynomials F),
      poly.num_variables = 0 →
      ∃ t, prove_as_subprotocol chal tr poly = Outcome.panic t) ∧
    (∀ (tr : Transcript F) (p0 p1 : ListOfProductsOfPolynomials F),
      p1.num_variables = 0 →
      ∃ t, multi_degree_prove_as_subprotocol chal tr p0 p1 = Outcome.panic t) := by
  constructor
  · intro tr poly h
    refine ⟨tr ++ [Item.info (polyInfo poly)], ?_⟩
    simp only [prove_as_subprotocol, h, proveLoop]
  · intro tr p0 p1 h
    by_cases h0 : p0.num_variables > p1.num_variables
    · refine ⟨tr ++ [Item.info (polyInfo p0)] ++ [Item.info (polyInfo p1)], ?_⟩
      simp only [multi_degree_prove_as_subprotocol, if_pos h0, h, sharedLoop]
      rw [if_pos (h ▸ h0)]
    · exact ⟨tr, by simp only [multi_degree_prove_as_subprotocol, if_neg h0]⟩

/-- C10 witness: on the concrete zero-variable polynomial, both
`prove_as_subprotocol` and the batched variant (with an arity-2
`polynomial_0`) panic. -/
theorem claim_C10_zero_variables_panics_witness :
    polyDemo0.num_variables = 0 ∧
    (∃ t, prove_as_subprotocol chalDemo [] polyDemo0 = Outcome.panic t) ∧
    (∃ t, multi_degree_prove_as_subprotocol chalDemo [] polyDemo polyDemo0 =
      Outcome.panic t) :=
  ⟨rfl,
   (claim_C10_zero_variables_panics chalDemo).1 [] polyDemo0 rfl,
   (claim_C10_zero_variables_panics chalDemo).2 [] polyDemo polyDemo0 rfl⟩

/-- C4: whenever `prove_as_subprotocol` (or `prove`) returns Ok, the returned
proof is an ordered sequence of round messages of length exactly
`num_variables`: one message is produced and recorded per iteration of the
round loop. -/
theorem claim_C4_proof_length (chal : List (Item F) → F)
    (poly : ListOfProductsOfPolynomials F) :
    (∀ (tr : Transcript F) (pf : Proof F) (st : ProverState F) (trf : Transcript F),
      prove_as_subprotocol chal tr poly = Outcome.ok ((pf, st), trf) →
      pf.length = poly.num_variables) ∧
    (∀ pf : Proof F, prove chal poly = Outcome.ok pf →
      pf.length = poly.num_variables) := by
  have key : ∀ (tr : Transcript F) (pf : Proof F) (st : ProverState F) (trf : Transcript F),
      prove_as_subprotocol chal tr poly = Outcome.ok ((pf, st), trf) →
      pf.length = poly.num_variables := by
    intro tr pf st trf h
    obtain ⟨cs, h1, h2, h3, h4, h5, h6, h7, h8, h9⟩ :=
      proveLoop_spec chal poly.num_variables (prover_init poly) none
        (tr ++ [Item.info (polyInfo poly)])
    rcases e : proveLoop chal poly.num_variables (prover_init poly) none
        (tr ++ [Item.info (polyInfo poly)]) with ⟨msgs, st', vmsg, trf'⟩
    rw [e] at h3
    simp only [prove_as_subprotocol, e] at h
    cases vmsg with
    | none => simp at h
    | some c =>
      simp only [Outcome.ok.injEq, Prod.mk.injEq] at h
      obtain ⟨⟨hpf, _⟩, _⟩ := h
      rw [← hpf]
      exact h3
  refine ⟨key, ?_⟩
  intro pf h
  simp only [prove] at h
  rcases e : prove_as_subprotocol chal [] poly with r | er | t
  · rw [e] at h
    simp only [Outcome.ok.injEq] at h
    rcases r with ⟨⟨pf', st⟩, trf⟩
    exact h ▸ key [] pf' st trf e
  · rw [e] at h; simp at h
  · rw [e] at h; simp at h

/-- C4 witness: on the spec's concrete arity-2 scenario, the prover succeeds
and the proof has exactly 2 round messages. -/
theorem claim_C4_proof_length_witness :
    prove chalDemo polyDemo =
      Outcome.ok [(⟨[0, 1, 2]⟩ : ProverMsg F101), ⟨[0, 5, 10]⟩] ∧
    ([(⟨[0, 1, 2]⟩ : ProverMsg F101), ⟨[0, 5, 10]⟩] : Proof F101).length =
      polyDemo.num_variables :=
  ⟨by decide,
   (claim_C4_proof_length chalDemo polyDemo).2 [⟨[0, 1, 2]⟩, ⟨[0, 5, 10]⟩] (by decide)⟩

/-- C8: whenever `prove_as_subprotocol` returns Ok on a polynomial with at
least one variable, the returned prover state's challenge list has length
exactly `num_variables`: the orchestrator samples the final pending challenge
after the round loop and appends it. -/
theorem claim_C8_final_challenge_appended (chal : List (Item F) → F)
    (poly : ListOfProductsOfPolynomials F) (hnv : 1 ≤ poly.num_variables) :
    ∀ (tr : Transcript F) (pf : Proof F) (st : ProverState F) (trf : Transcript F),
      prove_as_subprotocol chal tr poly = Outcome.ok ((pf, st), trf) →
      st.randomness.length = poly.num_variables := by
  intro tr pf st trf h
  obtain ⟨cs, h1, h2, h3, h4, h5, h6, h7, h8, h9⟩ :=
    proveLoop_spec chal poly.num_variables (prover_init poly) none
      (tr ++ [Item.info (polyInfo poly)])
  rcases e : proveLoop chal poly.num_variables (prover_init poly) none
      (tr ++ [Item.info (polyInfo poly)]) with ⟨msgs, st', vmsg, trf'⟩
  rw [e] at h5 h6
  simp only [prove_as_subprotocol, e] at h
  cases vmsg with
  | none => simp at h
  | some c =>
    simp only [Outcome.ok.injEq, Prod.mk.injEq] at h
    obtain ⟨⟨_, hst⟩, _⟩ := h
    rw [← hst]
    simp only [prover_init, Option.toList, List.nil_append] at h5 h6
    have hne : cs ≠ [] := by
      intro hcs
      rw [hcs] at h6
      simp at h6
    have hpos : 0 < cs.length := List.length_pos.mpr hne
    rw [h5]
    simp only [List.length_append, List.length_dropLast, List.length_cons,
      List.length_nil]
    omega

/-- C8 witness: on the spec's concrete arity-2 scenario the returned prover
state carries exactly 2 challenges. -/
theorem claim_C8_final_challenge_appended_witness :
    1 ≤ polyDemo.num_variables ∧
    prove_as_subprotocol chalDemo [] polyDemo = Outcome.ok
      (([(⟨[0, 1, 2]⟩ : ProverMsg F101), ⟨[0, 5, 10]⟩],
        ⟨[5, 7], [(1, [[0, 5], [1, 1]])], 1, 2⟩),
       [Item.info ⟨2, 2, [2]⟩, Item.msg [0, 1, 2], Item.sample,
        Item.msg [0, 5, 10], Item.sample]) ∧
    (⟨[5, 7], [(1, [[0, 5], [1, 1]])], 1, 2⟩ : ProverState F101).randomness.length =
      polyDemo.num_variables :=
  ⟨by decide, by decide,
   claim_C8_final_challenge_appended chalDemo polyDemo (by decide) []
     [⟨[0, 1, 2]⟩, ⟨[0, 5, 10]⟩] ⟨[5, 7], [(1, [[0, 5], [1, 1]])], 1, 2⟩
     [Item.info ⟨2, 2, [2]⟩, Item.msg [0, 1, 2], Item.sample,
      Item.msg [0, 5, 10], Item.sample] (by decide)⟩

/-- C5: in every successful execution of `prove_as_subprotocol` the transcript
receives, in order, the polynomial's shape summary once, then for each round
that round's message immediately followed by that round's challenge sampling;
in `multi_degree_prove_as_subprotocol` it receives both shape summaries, then
for each shared round both messages (larger instance first) before the single
shared sampling, then the tail rounds of the larger instance alone. -/
theorem claim_C5_transcript_order (chal : List (Item F) → F) :
    (∀ (tr : Transcript F) (poly : ListOfProductsOfPolynomials F)
      (pf : Proof F) (st : ProverState F) (trf : Transcript F),
      prove_as_subprotocol chal tr poly = Outcome.ok ((pf, st), trf) →
      trf = tr ++ [Item.info (polyInfo poly)] ++ msgBlocks pf) ∧
    (∀ (tr : Transcript F) (p0 p1 : ListOfProductsOfPolynomials F)
      (pf0 pf1 : Proof F) (sts : ProverState F × ProverState F)
      (trf : Transcript F),
      multi_degree_prove_as_subprotocol chal tr p0 p1 =
        Outcome.ok (((pf0, pf1), sts), trf) →
      trf = tr ++ [Item.info (polyInfo p0)] ++ [Item.info (polyInfo p1)] ++
        msgBlocks2 (pf0.take p1.num_variables) pf1 ++
        msgBlocks (pf0.drop p1.num_variables)) := by
  constructor
  · intro tr poly pf st trf h
    obtain ⟨cs, h1, h2, h3, h4, h5, h6, h7, h8, h9⟩ :=
      proveLoop_spec chal poly.num_variables (prover_init poly) none
        (tr ++ [Item.info (polyInfo poly)])
    rcases e : proveLoop chal poly.num_variables (prover_init poly) none
        (tr ++ [Item.info (polyInfo poly)]) with ⟨msgs, st', vmsg, trf'⟩
    rw [e] at h4
    simp only [prove_as_subprotocol, e] at h
    cases vmsg with
    | none => simp at h
    | some c =>
      simp only [Outcome.ok.injEq, Prod.mk.injEq] at h
      obtain ⟨⟨hpf, _⟩, htrf⟩ := h
      rw [← htrf, ← hpf]
      exact h4
  · intro tr p0 p1 pf0 pf1 sts trf h
    by_cases hc : p0.num_variables > p1.num_variables
    · simp only [multi_degree_prove_as_subprotocol, if_pos hc] at h
      obtain ⟨cs, s1, s2, s3, s4, s5, s6, s7, s8⟩ :=
        sharedLoop_spec chal p1.num_variables (prover_init p0) (prover_init p1) none
          (tr ++ [Item.info (polyInfo p0)] ++ [Item.info (polyInfo p1)])
      rcases e : sharedLoop chal p1.num_variables (prover_init p0) (prover_init p1) none
          (tr ++ [Item.info (polyInfo p0)] ++ [Item.info (polyInfo p1)]) with
        ⟨m0s, m1s, s0', s1', vmsg, tr2⟩
      rw [e] at s3 s4 s5
      dsimp only at s3 s4 s5
      simp only [e] at h
      cases vmsg with
      | none => simp at h
      | some c =>
        obtain ⟨cs2, t1, t2, t3, t4, t5, t6, t7, t8, t9⟩ :=
          proveLoop_spec chal (p0.num_variables - p1.num_variables) s0' (some c) tr2
        rcases e2 : proveLoop chal (p0.num_variables - p1.num_variables) s0' (some c) tr2
          with ⟨m0t, s0f, vmsg2, tr3⟩
        rw [e2] at t4
        dsimp only at t4
        simp only [e2] at h
        cases vmsg2 with
        | none => simp at h
        | some c2 =>
          simp only [Outcome.ok.injEq, Prod.mk.injEq] at h
          obtain ⟨⟨⟨hpf0, hpf1⟩, _⟩, htrf⟩ := h
          rw [← htrf, ← hpf0, ← hpf1, t4, s5]
          have hm0s : m0s.length = p1.num_variables := s3
          rw [List.take_left' hm0s, List.drop_left' hm0s]
    · simp only [multi_degree_prove_as_subprotocol, if_neg hc] at h
      simp at h

/-- C5 witness: on the spec's concrete scenario (and its batched pairing with
an arity-1 instance) the final transcript logs have exactly the specified
shape. -/
theorem claim_C5_transcript_order_witness :
    (prove_as_subprotocol chalDemo [] polyDemo = Outcome.ok
      (([(⟨[0, 1, 2]⟩ : ProverMsg F101), ⟨[0, 5, 10]⟩],
        ⟨[5, 7], [(1, [[0, 5], [1, 1]])], 1, 2⟩),
       [Item.info ⟨2, 2, [2]⟩, Item.msg [0, 1, 2], Item.sample,
        Item.msg [0, 5, 10], Item.sample]) ∧
     [Item.info ⟨2, 2, [2]⟩, Item.msg [0, 1, 2], Item.sample,
        Item.msg [0, 5, 10], Item.sample] =
       ([] : Transcript F101) ++ [Item.info (polyInfo polyDemo)] ++
         msgBlocks [⟨[0, 1, 2]⟩, ⟨[0, 5, 10]⟩]) ∧
    (multi_degree_prove_as_subprotocol chalDemo [] polyDemo polyDemo1 = Outcome.ok
      ((([(⟨[0, 1, 2]⟩ : ProverMsg F101), ⟨[0, 7, 14]⟩], [⟨[6, 10]⟩]),
        (⟨[7, 9], [(1, [[0, 7], [1, 1]])], 1, 2⟩,
         ⟨[7], [(2, [[3, 5]])], 1, 1⟩)),
       [Item.info ⟨2, 2, [2]⟩, Item.info ⟨1, 1, [1]⟩, Item.msg [0, 1, 2],
        Item.msg [6, 10], Item.sample, Item.msg [0, 7, 14], Item.sample]) ∧
     [Item.info ⟨2, 2, [2]⟩, Item.info ⟨1, 1, [1]⟩, Item.msg [0, 1, 2],
        Item.msg [6, 10], Item.sample, Item.msg [0, 7, 14], Item.sample] =
       ([] : Transcript F101) ++ [Item.info (polyInfo polyDemo)] ++
         [Item.info (polyInfo polyDemo1)] ++
         msgBlocks2 (([(⟨[0, 1, 2]⟩ : ProverMsg F101), ⟨[0, 7, 14]⟩]).take
           polyDemo1.num_variables) [⟨[6, 10]⟩] ++
         msgBlocks (([(⟨[0, 1, 2]⟩ : ProverMsg F101), ⟨[0, 7, 14]⟩]).drop
           polyDemo1.num_variables)) :=
  ⟨⟨by decide,
    (claim_C5_transcript_order chalDemo).1 [] polyDemo
      [⟨[0, 1, 2]⟩, ⟨[0, 5, 10]⟩] ⟨[5, 7], [(1, [[0, 5], [1, 1]])], 1, 2⟩
      [Item.info ⟨2, 2, [2]⟩, Item.msg [0, 1, 2], Item.sample,
       Item.msg [0, 5, 10], Item.sample] (by decide)⟩,
   ⟨by decide,
    (claim_C5_transcript_order chalDemo).2 [] polyDemo polyDemo1
      [⟨[0, 1, 2]⟩, ⟨[0, 7, 14]⟩] [⟨[6, 10]⟩]
      (⟨[7, 9], [(1, [[0, 7], [1, 1]])], 1, 2⟩, ⟨[7], [(2, [[3, 5]])], 1, 1⟩)
      [Item.info ⟨2, 2, [2]⟩, Item.info ⟨1, 1, [1]⟩, Item.msg [0, 1, 2],
       Item.msg [6, 10], Item.sample, Item.msg [0, 7, 14], Item.sample]
      (by decide)⟩⟩

/-- C6: in batched mode with arities `n0 > n1 ≥ 1`, the two provers share one
challenge per common round: `polynomial_1`'s final challenge vector has length
`n1`, equals the first `n1` coordinates of `polynomial_0`'s final challenge
vector, and equals the first `n1` challenges actually sampled from the shared
transcript. -/
theorem claim_C6_shared_challenge_vectors (chal : List (Item F) → F)
    (tr : Transcript F) (p0 p1 : ListOfProductsOfPolynomials F)
    (pf0 pf1 : Proof F) (st0 st1 : ProverState F) (trf : Transcript F)
    (hn1 : 1 ≤ p1.num_variables) (hn : p1.num_variables < p0.num_variables)
    (h : multi_degree_prove_as_subprotocol chal tr p0 p1 =
      Outcome.ok (((pf0, pf1), (st0, st1)), trf)) :
    st1.randomness.length = p1.num_variables ∧
    st1.randomness = st0.randomness.take p1.num_variables ∧
    st1.randomness = (samplesAux chal
      (tr ++ [Item.info (polyInfo p0)] ++ [Item.info (polyInfo p1)])
      (msgBlocks2 (pf0.take p1.num_variables) pf1 ++
        msgBlocks (pf0.drop p1.num_variables))).take p1.num_variables := by
  simp only [multi_degree_prove_as_subprotocol, if_pos hn] at h
  obtain ⟨cs, s1, s2, s3, s4, s5, s6, s7, s8⟩ :=
    sharedLoop_spec chal p1.num_variables (prover_init p0) (prover_init p1) none
      (tr ++ [Item.info (polyInfo p0)] ++ [Item.info (polyInfo p1)])
  rcases e : sharedLoop chal p1.num_variables (prover_init p0) (prover_init p1) none
      (tr ++ [Item.info (polyInfo p0)] ++ [Item.info (polyInfo p1)]) with
    ⟨m0s, m1s, s0', s1', vmsg, tr2⟩
  rw [e] at s1 s3 s4 s5 s6 s7 s8
  dsimp only at s1 s3 s4 s5 s6 s7 s8
  simp only [e] at h
  cases vmsg with
  | none => simp at h
  | some c =>
    simp only [prover_init, Option.toList, List.nil_append] at s6 s7 s8
    obtain ⟨cs2, t1, t2, t3, t4, t5, t6, t7, t8, t9⟩ :=
      proveLoop_spec chal (p0.num_variables - p1.num_variables) s0' (some c) tr2
    rcases e2 : proveLoop chal (p0.num_variables - p1.num_variables) s0' (some c) tr2
      with ⟨m0t, s0f, vmsg2, tr3⟩
    rw [e2] at t1 t4 t5 t6
    dsimp only at t1 t4 t5 t6
    simp only [e2] at h
    cases vmsg2 with
    | none => simp at h
    | some c2 =>
      simp only [Option.toList, List.singleton_append] at t5 t6
      simp only [Outcome.ok.injEq, Prod.mk.injEq] at h
      obtain ⟨⟨⟨hpf0, hpf1⟩, hst0, hst1⟩, htrf⟩ := h
      have hcsl : cs.getLast? = some c := s8.symm
      have hst1r : st1.randomness = cs := by
        rw [← hst1]
        dsimp only
        rw [s7]
        exact List.dropLast_append_getLast? c hcsl
      have hc2 : (c :: cs2).getLast? = some c2 := t6.symm
      have hst0r : st0.randomness = cs ++ cs2 := by
        rw [← hst0]
        dsimp only
        rw [t5, s6, List.append_assoc, List.dropLast_append_getLast? c2 hc2,
          ← List.dropLast_append_getLast? c hcsl, List.append_assoc]
        simp
      refine ⟨by rw [hst1r]; exact s2, ?_, ?_⟩
      · rw [hst1r, hst0r, List.take_left' s2]
      · have hm0s : m0s.length = p1.num_variables := s3
        rw [← hpf0, ← hpf1, List.take_left' hm0s, List.drop_left' hm0s,
          samplesAux_append, ← s1, ← s5, ← t1, hst1r, List.take_left' s2]

/-- C6 witness: the concrete batched run of the arity-2 and arity-1 demo
polynomials, where `polynomial_1`'s challenge vector `[7]` is the first
coordinate of `polynomial_0`'s `[7, 9]`. -/
theorem claim_C6_shared_challenge_vectors_witness :
    1 ≤ polyDemo1.num_variables ∧ polyDemo1.num_variables < polyDemo.num_variables ∧
    multi_degree_prove_as_subprotocol chalDemo [] polyDemo polyDemo1 = Outcome.ok
      ((([(⟨[0, 1, 2]⟩ : ProverMsg F101), ⟨[0, 7, 14]⟩], [⟨[6, 10]⟩]),
        (⟨[7, 9], [(1, [[0, 7], [1, 1]])], 1, 2⟩,
         ⟨[7], [(2, [[3, 5]])], 1, 1⟩)),
       [Item.info ⟨2, 2, [2]⟩, Item.info ⟨1, 1, [1]⟩, Item.msg [0, 1, 2],
        Item.msg [6, 10], Item.sample, Item.msg [0, 7, 14], Item.sample]) ∧
    (⟨[7], [(2, [[3, 5]])], 1, 1⟩ : ProverState F101).randomness =
      (⟨[7, 9], [(1, [[0, 7], [1, 1]])], 1, 2⟩ : ProverState F101).randomness.take
        polyDemo1.num_variables :=
  ⟨by decide, by decide, by decide,
   (claim_C6_shared_challenge_vectors chalDemo [] polyDemo polyDemo1
     [⟨[0, 1, 2]⟩, ⟨[0, 7, 14]⟩] [⟨[6, 10]⟩]
     ⟨[7, 9], [(1, [[0, 7], [1, 1]])], 1, 2⟩ ⟨[7], [(2, [[3, 5]])], 1, 1⟩
     [Item.info ⟨2, 2, [2]⟩, Item.info ⟨1, 1, [1]⟩, Item.msg [0, 1, 2],
      Item.msg [6, 10], Item.sample, Item.msg [0, 7, 14], Item.sample]
     (by decide) (by decide) (by decide)).2.1⟩

/-- C3: evaluating the verifier entry points on proofs shorter than the
expected round count: `verify_as_subprotocol` with a 1-variable shape and an
empty proof panics (the source fetches `proof[i]` with
`expect("proof is incomplete")`), and so does the multi-degree variant —
contradicting the specified recoverable malformed-proof error. -/
theorem claim_C3_short_proof_panics :
    verify_as_subprotocol chalDemo [] ⟨1, 2, [2]⟩ 1 ([] : Proof F101) =
      Outcome.panic [Item.info ⟨1, 2, [2]⟩] ∧
    multi_degree_verify_as_subprotocol chalDemo [] (⟨2, 2, [2]⟩, ⟨1, 2, [2]⟩) 1
      (([] : Proof F101), ([] : Proof F101)) =
      Outcome.panic [Item.info ⟨2, 2, [2]⟩, Item.info ⟨1, 2, [2]⟩] := by
  constructor
  · rfl
  · rfl

end Sumcheck
